import Mathlib

set_option maxHeartbeats 1600000

/-!
Verification of the goPost curl-to-collection converter.

The repository contains two variants of `parseCurlCommand` (in
`src/main.go` and in the unnamed source file `src/unnamed/part_000`);
both are embedded below as executable Lean functions, together with a
model of the fragments of Go's `strings`, `regexp` and `net/url`
libraries that they use.  Strings are processed as `List Char`.
-/

/-- Go `strings.Replace(s, "\\\n", " ", -1)`: every leftmost,
non-overlapping occurrence of backslash-newline becomes one space. -/
def replaceBackslashNewline : List Char → List Char
  | '\\' :: '\n' :: rest => ' ' :: replaceBackslashNewline rest
  | c :: rest => c :: replaceBackslashNewline rest
  | [] => []

/-- Go `strings.Replace(s, "\n", " ", -1)`: every newline becomes one space. -/
def replaceNewline : List Char → List Char
  | '\n' :: rest => ' ' :: replaceNewline rest
  | c :: rest => c :: replaceNewline rest
  | [] => []

/-- The text normalizer of `parseCurlCommand` (lines 20-21 of both
variants): collapse line continuations, then bare newlines. -/
def normalizeChars (s : List Char) : List Char :=
  replaceNewline (replaceBackslashNewline s)

/-- String-level wrapper of the text normalizer. -/
def normalizeCmd (s : String) : String :=
  ⟨normalizeChars s.data⟩

/-- Modelled from the spec wording of claim C9: a single left-to-right
pass that turns a backslash immediately followed by a newline into one
space, turns any remaining bare newline into one space, and copies every
other character unchanged. -/
def specNormalizeChars : List Char → List Char
  | '\\' :: '\n' :: rest => ' ' :: specNormalizeChars rest
  | '\n' :: rest => ' ' :: specNormalizeChars rest
  | c :: rest => c :: specNormalizeChars rest
  | [] => []

theorem normalizeChars_eq_spec (l : List Char) :
    normalizeChars l = specNormalizeChars l := by
  unfold normalizeChars
  induction l using specNormalizeChars.induct with
  | case1 rest ih =>
    rw [specNormalizeChars.eq_1, replaceBackslashNewline.eq_1,
      replaceNewline.eq_2 ' ' _ (by decide)]
    exact congrArg _ ih
  | case2 rest ih =>
    rw [specNormalizeChars.eq_2,
      replaceBackslashNewline.eq_2 '\n' rest (fun r h1 _ => absurd h1 (by decide)),
      replaceNewline.eq_1]
    exact congrArg _ ih
  | case3 c rest h1 h2 ih =>
    rw [specNormalizeChars.eq_3 c rest h1 h2,
      replaceBackslashNewline.eq_2 c rest h1,
      replaceNewline.eq_2 c _ h2]
    exact congrArg _ ih
  | case4 => rfl

/-! ### String scanning primitives (models of Go `strings` helpers) -/

/-- Drop the literal `lit` from the front of `s`, if it is a prefix. -/
def dropLit : List Char → List Char → Option (List Char)
  | [], s => some s
  | _ :: _, [] => none
  | c :: cs, d :: ds => if c = d then dropLit cs ds else none

/-- Does `p` stand at the front of `s`? -/
def atFront (p s : List Char) : Bool :=
  (dropLit p s).isSome

/-- Go `strings.Contains`: does `p` occur anywhere in `s`? -/
def occursIn (p s : List Char) : Bool :=
  match s with
  | [] => atFront p []
  | _ :: rest => atFront p s || occursIn p rest

/-- Go `strings.Cut` at the first occurrence of the character `ch`:
`some (before, after)` when found. -/
def cutChar (ch : Char) : List Char → Option (List Char × List Char)
  | [] => none
  | c :: rest =>
    if c = ch then some ([], rest)
    else (cutChar ch rest).map (fun ab => (c :: ab.1, ab.2))

/-- Go `strings.Split` on a single-character separator (helper). -/
def splitOnAux (ch : Char) (cur : List Char) : List Char → List (List Char)
  | [] => [cur.reverse]
  | c :: rest =>
    if c = ch then cur.reverse :: splitOnAux ch [] rest
    else splitOnAux ch (c :: cur) rest

/-- Go `strings.Split(s, ch)`. -/
def splitOn (ch : Char) (s : List Char) : List (List Char) :=
  splitOnAux ch [] s

/-- Go `strings.TrimLeft(s, cutset)` for a one-character cutset. -/
def trimLeftChar (ch : Char) (l : List Char) : List Char :=
  l.dropWhile (fun c => c = ch)

/-- Go `strings.Trim(s, cutset)` for a one-character cutset. -/
def trimChar (ch : Char) (l : List Char) : List Char :=
  ((l.dropWhile (fun c => c = ch)).reverse.dropWhile (fun c => c = ch)).reverse

theorem dropLit_eq_append {p s t : List Char} (h : dropLit p s = some t) :
    s = p ++ t := by
  induction p generalizing s with
  | nil => simpa [dropLit] using h
  | cons c cs ih =>
    cases s with
    | nil => simp [dropLit] at h
    | cons d ds =>
      rw [dropLit] at h
      split at h
      · next heq => rw [heq] at *; simpa using ih h
      · exact absurd h (by simp)

theorem dropLit_append_self (p t : List Char) : dropLit p (p ++ t) = some t := by
  induction p with
  | nil => rfl
  | cons c cs ih => simp [dropLit, ih]

/-! ### The regular-expression extractors of `parseCurlCommand`

Each of the four regexes used in the source is deterministic (every
quantified subpattern is followed by a character it can never match), so
each compiles to a scanner that, at a candidate start position, takes
the maximal run for every quantifier.  `FindStringSubmatch` is the first
(leftmost) match; `FindAllStringSubmatch` repeats from the end of the
previous match. -/

/-- RE2 `\w`: `[0-9A-Za-z_]`. -/
def isWordChar (c : Char) : Bool :=
  c.isAlphanum || c = '_'

/-- RE2 `\s`: `[\t\n\f\r ]`. -/
def isSpaceRE (c : Char) : Bool :=
  c = ' ' || c = '\t' || c = '\n' || c = '\x0c' || c = '\r'

/-- Match `--request (\w+) '([^']*)'` (main.go line 23) at the front of
`s`, returning (method, url). -/
def matchMethodUrlQuotedAt (s : List Char) : Option (String × String) :=
  match dropLit "--request ".data s with
  | none => none
  | some t =>
    let m := t.takeWhile isWordChar
    if m.isEmpty then none
    else
      match dropLit [' ', '\x27'] (t.dropWhile isWordChar) with
      | none => none
      | some t2 =>
        let u := t2.takeWhile (fun c => c ≠ '\x27')
        match t2.dropWhile (fun c => c ≠ '\x27') with
        | '\x27' :: _ => some (⟨m⟩, ⟨u⟩)
        | _ => none

/-- `FindStringSubmatch` for the quoted-dialect regex: leftmost match. -/
def findMethodUrlQuoted : List Char → Option (String × String)
  | [] => none
  | c :: rest =>
    match matchMethodUrlQuotedAt (c :: rest) with
    | some r => some r
    | none => findMethodUrlQuoted rest

/-- Match `--request\s+(\w+)\s+--url\s+([^ ]+)` (part_000 line 24) at the
front of `s`, returning (method, url token). -/
def matchMethodUrlUnquotedAt (s : List Char) : Option (String × String) :=
  match dropLit "--request".data s with
  | none => none
  | some t0 =>
    if (t0.takeWhile isSpaceRE).isEmpty then none
    else
      let t1 := t0.dropWhile isSpaceRE
      let m := t1.takeWhile isWordChar
      if m.isEmpty then none
      else
        let t2 := t1.dropWhile isWordChar
        if (t2.takeWhile isSpaceRE).isEmpty then none
        else
          match dropLit "--url".data (t2.dropWhile isSpaceRE) with
          | none => none
          | some t3 =>
            if (t3.takeWhile isSpaceRE).isEmpty then none
            else
              let t4 := t3.dropWhile isSpaceRE
              let u := t4.takeWhile (fun c => c ≠ ' ')
              if u.isEmpty then none else some (⟨m⟩, ⟨u⟩)

/-- `FindStringSubmatch` for the unquoted-dialect regex: leftmost match. -/
def findMethodUrlUnquoted : List Char → Option (String × String)
  | [] => none
  | c :: rest =>
    match matchMethodUrlUnquotedAt (c :: rest) with
    | some r => some r
    | none => findMethodUrlUnquoted rest

/-- Match `--header '([^:]+): ([^']*)'` (both variants) at the front of
`s`, returning (key, value, rest after the match). -/
def matchHeaderAt (s : List Char) : Option (String × String × List Char) :=
  match dropLit "--header \x27".data s with
  | none => none
  | some t =>
    match t.takeWhile (fun c => c ≠ ':'), t.dropWhile (fun c => c ≠ ':') with
    | _ :: _, ':' :: ' ' :: t2 =>
      match t2.dropWhile (fun c => c ≠ '\x27') with
      | '\x27' :: rest =>
        some (⟨t.takeWhile (fun c => c ≠ ':')⟩, ⟨t2.takeWhile (fun c => c ≠ '\x27')⟩, rest)
      | _ => none
    | _, _ => none

theorem matchHeaderAt_sound {s : List Char} {k v : String} {rest : List Char}
    (h : matchHeaderAt s = some (k, v, rest)) :
    s = "--header \x27".data ++ k.data ++ ':' :: ' ' :: (v.data ++ '\x27' :: rest) ∧
      k.data ≠ [] ∧ (∀ c ∈ k.data, c ≠ ':') ∧ (∀ c ∈ v.data, c ≠ '\x27') := by
  unfold matchHeaderAt at h
  split at h
  · exact absurd h (by simp)
  · next t ht =>
    split at h
    · rename_i x1 x2 hd tl t2 hk hdrop
      split at h
      · rename_i x3 rest' hdrop2
        simp only [Option.some.injEq, Prod.mk.injEq] at h
        obtain ⟨h1, h2, h3⟩ := h
        subst h1; subst h2; subst h3
        refine ⟨?_, ?_, ?_, ?_⟩
        · have hs := dropLit_eq_append ht
          have ht1 : t = t.takeWhile (fun c => c ≠ ':') ++ (':' :: ' ' :: t2) := by
            conv_lhs => rw [← List.takeWhile_append_dropWhile (p := fun c => decide (c ≠ ':')) (l := t)]
            rw [hdrop]
          have ht2 : t2 = t2.takeWhile (fun c => c ≠ '\x27') ++ ('\x27' :: rest') := by
            conv_lhs => rw [← List.takeWhile_append_dropWhile (p := fun c => decide (c ≠ '\x27')) (l := t2)]
            rw [hdrop2]
          rw [ht2] at ht1
          rw [hs]
          simpa using congrArg (fun l => "--header \x27".data ++ l) ht1
        · intro hcon
          simp only [String.data] at hcon
          rw [hcon] at hk
          exact absurd hk (by simp)
        · intro c hc
          have := List.mem_takeWhile_imp hc
          simpa using this
        · intro c hc
          have := List.mem_takeWhile_imp hc
          simpa using this
      · exact absurd h (by simp)
    · exact absurd h (by simp)

theorem matchHeaderAt_length {s : List Char} {k v : String} {rest : List Char}
    (h : matchHeaderAt s = some (k, v, rest)) : rest.length < s.length := by
  obtain ⟨hs, -, -, -⟩ := matchHeaderAt_sound h
  rw [hs]
  simp [List.length_append]
  omega

/-- The `FindAllStringSubmatch` scan with explicit fuel; a match always
consumes at least one character (`matchHeaderAt_length`), so fuel
`s.length` makes this the unbounded scan while keeping the recursion
structural. -/
def findAllHeadersFuel : Nat → List Char → List (String × String)
  | 0, _ => []
  | _ + 1, [] => []
  | fuel + 1, c :: rest =>
    match matchHeaderAt (c :: rest) with
    | some kva => (kva.1, kva.2.1) :: findAllHeadersFuel fuel kva.2.2
    | none => findAllHeadersFuel fuel rest

/-- `FindAllStringSubmatch` for the header regex: all leftmost,
non-overlapping matches, in order (both variants, lines 24-25 / 25). -/
def findAllHeadersAux (s : List Char) : List (String × String) :=
  findAllHeadersFuel s.length s

/-- The lazy span of `\{.*?\}'`: the shortest run of non-newline
characters up to a `}` that is immediately followed by a `'`. -/
def lazyBraceSpan : List Char → Option (List Char)
  | '\x7d' :: '\x27' :: _ => some []
  | '\n' :: _ => none
  | c :: rest => (lazyBraceSpan rest).map (fun sp => c :: sp)
  | [] => none

/-- Match `<lit>'(\{.*?\})'` at the front of `s` where `lit` is the flag
literal including the opening quote; returns the brace-delimited capture. -/
def matchBraceCaptureAt (lit : List Char) (s : List Char) : Option String :=
  match dropLit lit s with
  | none => none
  | some t =>
    match t with
    | '\x7b' :: u => (lazyBraceSpan u).map (fun sp => ⟨'\x7b' :: (sp ++ ['\x7d'])⟩)
    | _ => none

/-- `FindStringSubmatch` for `--data-raw '(\{.*?\})'` (main.go line 25,
part_000 line 27): leftmost match, capture only. -/
def findDataRawCap : List Char → Option String
  | [] => none
  | c :: rest =>
    match matchBraceCaptureAt "--data-raw \x27".data (c :: rest) with
    | some r => some r
    | none => findDataRawCap rest

/-- `FindStringSubmatch` for `--data '(\{.*?\})'` (part_000 line 26). -/
def findDataCap : List Char → Option String
  | [] => none
  | c :: rest =>
    match matchBraceCaptureAt "--data \x27".data (c :: rest) with
    | some r => some r
    | none => findDataCap rest

/-! ### Model of Go `net/url`

The fragment of `net/url` used by the program: `url.Parse`,
`URL.Hostname`, `URL.Port`, `URL.Query` and `URL.String`.  The model
follows the structure of the Go source (`parse` with `viaRequest =
false`, `getScheme`, `parseAuthority`, `parseHost`, `splitHostPort`,
`parseQuery`).  Go strings are byte strings; here characters stand for
bytes, so a percent-escape decodes to the character with that code
point, which agrees with Go on ASCII (the only range the claims
exercise). -/

structure GoURL where
  scheme : String := ""
  opq : String := ""
  user : String := ""
  hasUser : Bool := false
  host : String := ""
  path : String := ""
  rawPath : String := ""
  forceQuery : Bool := false
  rawQuery : String := ""
  fragment : String := ""
  omitHost : Bool := false
deriving DecidableEq, Repr

def isUpperHexOrDigit (c : Char) : Bool :=
  ('0' ≤ c && c ≤ '9') || ('a' ≤ c && c ≤ 'f') || ('A' ≤ c && c ≤ 'F')

def hexVal (c : Char) : Nat :=
  if '0' ≤ c && c ≤ '9' then c.toNat - '0'.toNat
  else if 'a' ≤ c && c ≤ 'f' then c.toNat - 'a'.toNat + 10
  else if 'A' ≤ c && c ≤ 'F' then c.toNat - 'A'.toNat + 10
  else 0

/-- Go `stringContainsCTLByte`: control bytes make `url.Parse` fail. -/
def hasCTL (s : List Char) : Bool :=
  s.any (fun c => c.toNat < 0x20 || c.toNat == 0x7f)

/-- Are all `%` escapes in `s` followed by two hex digits?  (The part of
Go's `unescape` that can fail for fragments and userinfo.) -/
def validEscapes : List Char → Bool
  | [] => true
  | '%' :: a :: b :: rest => isUpperHexOrDigit a && isUpperHexOrDigit b && validEscapes rest
  | '%' :: _ => false
  | _ :: rest => validEscapes rest

/-- Go `unescape(s, encodePath)`: validate and decode percent escapes. -/
def pctDecode : List Char → Option (List Char)
  | [] => some []
  | '%' :: a :: b :: rest =>
    if isUpperHexOrDigit a && isUpperHexOrDigit b then
      (pctDecode rest).map (fun l => Char.ofNat (16 * hexVal a + hexVal b) :: l)
    else none
  | '%' :: _ => none
  | c :: rest => (pctDecode rest).map (fun l => c :: l)

/-- The characters Go's `shouldEscape(c, encodeHost)` leaves unescaped:
these may appear raw in a host. -/
def isHostChar (c : Char) : Bool :=
  c.isAlphanum ||
    c ∈ ['-', '_', '.', '~', '!', '$', '&', '\x27', '(', ')', '*', '+', ',', ';',
      '=', ':', '[', ']', '<', '>', '"'] ||
    0x80 ≤ c.toNat

/-- Go `unescape(host, encodeHost)`: raw characters must be host
characters; a `%`-escape must be `%25` or encode a byte ≥ 0x80. -/
def unescapeHost : List Char → Option (List Char)
  | [] => some []
  | '%' :: a :: b :: rest =>
    if isUpperHexOrDigit a && isUpperHexOrDigit b && (8 ≤ hexVal a || (a = '2' && b = '5')) then
      (unescapeHost rest).map (fun l => Char.ofNat (16 * hexVal a + hexVal b) :: l)
    else none
  | '%' :: _ => none
  | c :: rest =>
    if isHostChar c then (unescapeHost rest).map (fun l => c :: l) else none

def isDigitCh (c : Char) : Bool :=
  '0' ≤ c && c ≤ '9'

/-- Go `validOptionalPort`: empty, or `:` followed by digits only. -/
def validOptionalPort : List Char → Bool
  | [] => true
  | ':' :: rest => rest.all isDigitCh
  | _ => false

/-- Split at the LAST occurrence of `ch`: `some (before, after)`. -/
def splitLastChar (ch : Char) (s : List Char) : Option (List Char × List Char) :=
  match cutChar ch s.reverse with
  | none => none
  | some (revAfter, revBefore) => some (revBefore.reverse, revAfter.reverse)

/-- Go `parseHost` (bracketed IPv6 zone details elided to the bracket
and port checks, which is all the inputs here can reach). -/
def parseHost (host : List Char) : Option (List Char) :=
  if atFront ['['] host then
    match splitLastChar ']' host with
    | none => none
    | some (_, after) => if validOptionalPort after then unescapeHost host else none
  else
    match splitLastChar ':' host with
    | none => unescapeHost host
    | some (_, after) =>
      if validOptionalPort (':' :: after) then unescapeHost host else none

/-- Go `validUserinfo`. -/
def isUserinfoChar (c : Char) : Bool :=
  c.isAlphanum ||
    c ∈ ['-', '.', '_', ':', '~', '!', '$', '&', '\x27', '(', ')', '*', '+', ',',
      ';', '=', '%', '@']

/-- Go `parseAuthority`: split userinfo at the last `@`, validate it,
parse the host.  Returns `(userinfo?, host)`. -/
def parseAuthority (authority : List Char) : Option (Option (List Char) × List Char) :=
  match splitLastChar '@' authority with
  | none => (parseHost authority).map (fun h => (none, h))
  | some (userinfo, hostPart) =>
    match parseHost hostPart with
    | none => none
    | some h =>
      if userinfo.all isUserinfoChar && validEscapes userinfo then some (some userinfo, h)
      else none

/-- Go `getScheme` iteration; `acc` holds the characters scanned so far
(so `acc = []` exactly when at index 0).  `none` models the
"missing protocol scheme" error. -/
def getSchemeAux (orig : List Char) (acc : List Char) : List Char → Option (List Char × List Char)
  | [] => some ([], orig)
  | c :: rest =>
    if ('a' ≤ c && c ≤ 'z') || ('A' ≤ c && c ≤ 'Z') then
      getSchemeAux orig (acc ++ [c]) rest
    else if isDigitCh c || c = '+' || c = '-' || c = '.' then
      if acc.isEmpty then some ([], orig) else getSchemeAux orig (acc ++ [c]) rest
    else if c = ':' then
      if acc.isEmpty then none else some (acc, rest)
    else some ([], orig)

/-- Go `getScheme`: `some (scheme, rest)`. -/
def getScheme (s : List Char) : Option (List Char × List Char) :=
  getSchemeAux s [] s

/-- Does the first path segment (the part of `rest` before the first
`/`) contain a colon?  (`url.Parse` rejects such scheme-less URLs.) -/
def colonInFirstSeg (rest : List Char) : Bool :=
  (rest.takeWhile (fun c => c ≠ '/')).any (fun c => c = ':')

/-- Split `rest[2:]` into authority and remaining path at the first `/`
(the `strings.Index(authority, "/")` step of `url.parse`). -/
def authorityChunk (after2 : List Char) : List Char × List Char :=
  match cutChar '/' after2 with
  | none => (after2, [])
  | some ab => (ab.1, '/' :: ab.2)

/-- The authority/path section of Go's `url.parse`: everything after the
query has been split off.  Constructs the URL record. -/
def parseAuthorityAndPath (scheme : String) (frag rawQuery : List Char) (forceQuery : Bool)
    (rest : List Char) : Option GoURL :=
  if atFront ['/', '/'] rest && (scheme ≠ "" || !atFront ['/', '/', '/'] rest) then
    match parseAuthority (authorityChunk (rest.drop 2)).1 with
    | none => none
    | some uh =>
      match pctDecode (authorityChunk (rest.drop 2)).2 with
      | none => none
      | some p =>
        some { scheme := scheme, host := ⟨uh.2⟩, path := ⟨p⟩,
               rawPath := if p = (authorityChunk (rest.drop 2)).2 then ""
                 else ⟨(authorityChunk (rest.drop 2)).2⟩,
               rawQuery := ⟨rawQuery⟩, fragment := ⟨frag⟩, forceQuery := forceQuery,
               user := ⟨(uh.1.getD [])⟩, hasUser := uh.1.isSome }
  else
    match pctDecode rest with
    | none => none
    | some p =>
      some { scheme := scheme, path := ⟨p⟩,
             rawPath := if p = rest then "" else ⟨rest⟩,
             rawQuery := ⟨rawQuery⟩, fragment := ⟨frag⟩, forceQuery := forceQuery,
             omitHost := scheme ≠ "" && atFront ['/'] rest }

/-- The `ForceQuery`/`RawQuery` step of `url.parse`: returns
(rest, rawQuery, forceQuery). -/
def querySplit (rest0 : List Char) : List Char × List Char × Bool :=
  if atFront ['?'] rest0.reverse && rest0.count '?' == 1 then
    ((rest0.reverse.drop 1).reverse, [], true)
  else
    match cutChar '?' rest0 with
    | none => (rest0, [], false)
    | some ab => (ab.1, ab.2, false)

/-- Go `url.parse` after the scheme has been split off and lowered. -/
def parseWithScheme (scheme : String) (frag : List Char) (rest0 : List Char) : Option GoURL :=
  if atFront ['/'] (querySplit rest0).1 then
    parseAuthorityAndPath scheme frag (querySplit rest0).2.1 (querySplit rest0).2.2
      (querySplit rest0).1
  else if scheme ≠ "" then
    some { scheme := scheme, opq := ⟨(querySplit rest0).1⟩,
           rawQuery := ⟨(querySplit rest0).2.1⟩,
           fragment := ⟨frag⟩, forceQuery := (querySplit rest0).2.2 }
  else if colonInFirstSeg (querySplit rest0).1 then none
  else
    parseAuthorityAndPath scheme frag (querySplit rest0).2.1 (querySplit rest0).2.2
      (querySplit rest0).1

/-- The fragment split of `url.parse`: cut at the first `#`. -/
def fragSplit (s : List Char) : List Char × List Char :=
  match cutChar '#' s with
  | none => (s, [])
  | some ab => (ab.1, ab.2)

/-- Go `url.Parse` (with `viaRequest = false`), as used on line 38/41 of
the two variants.  `none` models a non-nil error. -/
def goURLParse (str : String) : Option GoURL :=
  if hasCTL str.data then none
  else if !validEscapes (fragSplit str.data).2 then none
  else
    match getScheme (fragSplit str.data).1 with
    | none => none
    | some sr => parseWithScheme ⟨sr.1.map Char.toLower⟩ (fragSplit str.data).2 sr.2

/-- Go `splitHostPort` (used by `Hostname` and `Port`). -/
def splitHostPort (hostPort : List Char) : List Char × List Char :=
  let hp :=
    match splitLastChar ':' hostPort with
    | some (before, after) =>
      if validOptionalPort (':' :: after) then (before, after) else (hostPort, [])
    | none => (hostPort, [])
  let h := hp.1
  if atFront ['['] h && atFront [']'] h.reverse then
    (h.drop 1 |>.reverse |>.drop 1 |>.reverse, hp.2)
  else hp

/-- Go `URL.Hostname()`. -/
def goHostname (u : GoURL) : String :=
  ⟨(splitHostPort u.host.data).1⟩

/-- Go `URL.Port()`. -/
def goPort (u : GoURL) : String :=
  ⟨(splitHostPort u.host.data).2⟩

/-- Go `QueryUnescape`: `+` becomes space, then percent-decoding. -/
def queryUnescape (s : List Char) : Option (List Char) :=
  pctDecode (s.map (fun c => if c = '+' then ' ' else c))

/-- One `key=value` chunk of Go `ParseQuery`: empty chunks and chunks
containing `;` are dropped, as are chunks whose unescaping fails. -/
def queryPairOfChunk (chunk : List Char) : List (String × String) :=
  if chunk.isEmpty then []
  else if chunk.any (fun c => c = ';') then []
  else
    let kv :=
      match cutChar '=' chunk with
      | none => (chunk, [])
      | some (k, v) => (k, v)
    match queryUnescape kv.1, queryUnescape kv.2 with
    | some k, some v => [(⟨k⟩, ⟨v⟩)]
    | _, _ => []

/-- Go `ParseQuery` as the ordered list of decoded (key, value) pairs. -/
def queryPairs (raw : List Char) : List (String × String) :=
  (splitOn '&' raw).flatMap queryPairOfChunk

/-- Append `v` to the bucket of `k` (the `m[key] = append(m[key], value)`
step of `ParseQuery`); buckets are kept in first-appearance order. -/
def upsertGroup (k v : String) : List (String × List String) → List (String × List String)
  | [] => [(k, [v])]
  | (k2, vs) :: rest =>
    if k2 = k then (k2, vs ++ [v]) :: rest else (k2, vs) :: upsertGroup k v rest

/-- The `url.Values` map built by `ParseQuery`, as an association list in
first-appearance key order; each bucket keeps its order of appearance. -/
def groupPairs (l : List (String × String)) : List (String × List String) :=
  l.foldl (fun acc kv => upsertGroup kv.1 kv.2 acc) []

/-- Lookup in the grouped `url.Values` map. -/
def lookupGroup (g : List (String × List String)) (k : String) : List String :=
  match g.find? (fun e => e.1 = k) with
  | some e => e.2
  | none => []

/-! ### Model of Go `URL.String()` (only the `raw` record field uses it;
no claim inspects its exact value).  Userinfo and fragments are written
back raw; host and path get Go's output escaping. -/

def hexDigitUpper (n : Nat) : Char :=
  if n < 10 then Char.ofNat ('0'.toNat + n) else Char.ofNat ('A'.toNat + n - 10)

def escapeCh (c : Char) : List Char :=
  ['%', hexDigitUpper (c.toNat / 16 % 16), hexDigitUpper (c.toNat % 16)]

/-- Go `shouldEscape(c, encodeHost)` for writing a host back out. -/
def shouldEscapeHostOut (c : Char) : Bool :=
  !(c.isAlphanum ||
    c ∈ ['-', '_', '.', '~', '!', '$', '&', '\x27', '(', ')', '*', '+', ',', ';',
      '=', ':', '[', ']', '<', '>', '"'])

/-- Go `shouldEscape(c, encodePath)`. -/
def shouldEscapePathOut (c : Char) : Bool :=
  !(c.isAlphanum || c ∈ ['-', '_', '.', '~'] ||
    c ∈ ['$', '&', '+', ',', '/', ';', ':', '=', '@'])

/-- Go `validEncoded(s, encodePath)`. -/
def validEncodedPath : List Char → Bool
  | [] => true
  | c :: rest =>
    (c ∈ ['!', '$', '&', '\x27', '(', ')', '*', '+', ',', ';', '=', ':', '@', '[', ']', '%'] ||
      !shouldEscapePathOut c) && validEncodedPath rest

/-- Go `URL.EscapedPath()`. -/
def escapedPathOf (u : GoURL) : List Char :=
  if u.rawPath ≠ "" && validEncodedPath u.rawPath.data then u.rawPath.data
  else u.path.data.flatMap (fun c => if shouldEscapePathOut c then escapeCh c else [c])

/-- Go `URL.String()`. -/
def goURLString (u : GoURL) : String :=
  let schemePart := if u.scheme ≠ "" then u.scheme.data ++ [':'] else []
  let core :=
    if u.opq ≠ "" then u.opq.data
    else
      let auth :=
        if u.scheme ≠ "" || u.host ≠ "" || u.hasUser then
          if u.omitHost && u.host = "" && !u.hasUser then []
          else
            (if u.host ≠ "" || u.path ≠ "" || u.hasUser then ['/', '/'] else []) ++
              (if u.hasUser then u.user.data ++ ['@'] else []) ++
              u.host.data.flatMap (fun c => if shouldEscapeHostOut c then escapeCh c else [c])
        else []
      let p := escapedPathOf u
      let slashFix := if p ≠ [] && p.head? ≠ some '/' && u.host ≠ "" then ['/'] else []
      let dotSlash :=
        if schemePart.isEmpty && auth.isEmpty && slashFix.isEmpty && colonInFirstSeg p then
          ['.', '/']
        else []
      auth ++ slashFix ++ dotSlash ++ p
  let q := if u.forceQuery || u.rawQuery ≠ "" then '?' :: u.rawQuery.data else []
  let f := if u.fragment ≠ "" then '#' :: u.fragment.data else []
  ⟨schemePart ++ core ++ q ++ f⟩

/-! ### The request records built by the two `parseCurlCommand` variants -/

structure HeaderKV where
  key : String
  value : String
deriving DecidableEq, Repr

structure BodyRec where
  mode : String
  raw : String
deriving DecidableEq, Repr

/-- One entry of the `query` array built by main.go lines 40-48. -/
structure QueryKV where
  key : String
  value : String
  disabled : Bool
deriving DecidableEq, Repr

/-- The `url` object of the main.go record (lines 78-85). -/
structure MainURLRec where
  raw : String
  protocol : String
  host : List String
  port : String
  path : List String
  query : List QueryKV
deriving DecidableEq, Repr

structure MainReq where
  method : String
  header : List HeaderKV
  body : BodyRec
  url : MainURLRec
deriving DecidableEq, Repr

/-- The record returned by main.go `parseCurlCommand` (lines 66-88). -/
structure MainItem where
  name : String
  disableBodyPruning : Bool
  request : MainReq
  response : List Unit
deriving DecidableEq, Repr

/-- The `url` object of the part_000 record (lines 86-93); its `query`
is the `url.Values` map itself, here in first-appearance key order. -/
structure PartURLRec where
  raw : String
  protocol : String
  host : List String
  port : String
  path : List String
  query : List (String × List String)
deriving DecidableEq, Repr

structure PartReq where
  method : String
  header : List HeaderKV
  body : BodyRec
  url : PartURLRec
deriving DecidableEq, Repr

/-- The record returned by part_000 `parseCurlCommand` (lines 74-96). -/
structure PartItem where
  name : String
  disableBodyPruning : Bool
  request : PartReq
  response : List Unit
deriving DecidableEq, Repr

/-! ### The two `parseCurlCommand` variants -/

/-- main.go lines 27-32: first quoted-dialect match, else (GET, ""). -/
def mainGoMethodUrl (curl : String) : String × String :=
  match findMethodUrlQuoted (normalizeChars curl.data) with
  | some mu => mu
  | none => ("GET", "")

/-- Lines 34-36 / 37-39 of the two variants: prepend `http://` when the
extracted URL does not contain `://` (Go `strings.Contains`). -/
def resolveScheme (u : String) : String :=
  if occursIn "://".data u.data then u else "http://" ++ u

def mainGoResolvedUrl (curl : String) : String :=
  resolveScheme (mainGoMethodUrl curl).2

/-- part_000 lines 30-35: first unquoted-dialect match, else (GET, ""). -/
def part000MethodUrl (curl : String) : String × String :=
  match findMethodUrlUnquoted (normalizeChars curl.data) with
  | some mu => mu
  | none => ("GET", "")

def part000ResolvedUrl (curl : String) : String :=
  resolveScheme (part000MethodUrl curl).2

/-- Header extraction shared by both variants (lines 50-56 / 47-54). -/
def headerEntries (c : List Char) : List HeaderKV :=
  (findAllHeadersAux c).map (fun kv => ⟨kv.1, kv.2⟩)

/-- The `path` field of both records:
`[]string{strings.TrimLeft(parsedUrl.Path, "/")}` (line 83 / 91). -/
def urlPathField (pu : GoURL) : List String :=
  [⟨trimLeftChar '/' pu.path.data⟩]

/-- main.go lines 58-64: `--data-raw` capture, else mode `none`. -/
def mainGoBody (c : List Char) : BodyRec :=
  match findDataRawCap c with
  | some d => { mode := "raw", raw := d }
  | none => { mode := "none", raw := "" }

/-- part_000 lines 57-64: `--data` capture, else `--data-raw`, else "". -/
def part000BodyRaw (c : List Char) : String :=
  match findDataCap c with
  | some d => d
  | none => (findDataRawCap c).getD ""

/-- main.go lines 39-48: the query array.  Go ranges over the
`url.Values` map, whose key order is unspecified; `keyOrder` is the key
enumeration order of that particular run. -/
def mainGoQueryList (pu : GoURL) (keyOrder : List String) : List QueryKV :=
  keyOrder.flatMap
    (fun k => (lookupGroup (groupPairs (queryPairs pu.rawQuery.data)) k).map
      (fun v => ⟨k, v, false⟩))

/-- The distinct query keys of a parsed command's URL (the set the map
range of main.go lines 40-48 enumerates), in first-appearance order. -/
def mainGoQueryKeys (curl : String) : List String :=
  match goURLParse (mainGoResolvedUrl curl) with
  | none => []
  | some pu => (groupPairs (queryPairs pu.rawQuery.data)).map Prod.fst

/-- The record literal of main.go lines 66-88. -/
def mainGoBuild (curl : String) (pu : GoURL) (keyOrder : List String) : MainItem :=
  { name := "Generated from Curl",
    disableBodyPruning := true,
    request :=
      { method := (mainGoMethodUrl curl).1,
        header := headerEntries (normalizeChars curl.data),
        body := mainGoBody (normalizeChars curl.data),
        url :=
          { raw := goURLString pu, protocol := pu.scheme, host := [goHostname pu],
            port := goPort pu, path := urlPathField pu,
            query := mainGoQueryList pu keyOrder } },
    response := [] }

/-- main.go `parseCurlCommand`.  The source ignores the `url.Parse`
error (line 38); on error `parsedUrl` is nil and the later method calls
panic, so no record is produced: modelled as `none`. -/
def mainGoParse (curl : String) (keyOrder : List String) : Option MainItem :=
  match goURLParse (mainGoResolvedUrl curl) with
  | none => none
  | some pu => some (mainGoBuild curl pu keyOrder)

/-- part_000 lines 66-71: display name from the split path. -/
def part000Name (pu : GoURL) : String :=
  match (splitOn '/' (trimChar '/' pu.path.data)).getLast? with
  | some seg => ⟨seg⟩
  | none => "Generated from Curl"

/-- The record literal of part_000 lines 74-96. -/
def part000Build (curl : String) (pu : GoURL) : PartItem :=
  { name := part000Name pu,
    disableBodyPruning := true,
    request :=
      { method := (part000MethodUrl curl).1,
        header := headerEntries (normalizeChars curl.data),
        body := { mode := "raw", raw := part000BodyRaw (normalizeChars curl.data) },
        url :=
          { raw := goURLString pu, protocol := pu.scheme, host := [goHostname pu],
            port := goPort pu, path := urlPathField pu,
            query := groupPairs (queryPairs pu.rawQuery.data) } },
    response := [] }

/-- part_000 `parseCurlCommand` (lines 18-97): returns nil (here `none`)
when the URL fails to parse or has an empty hostname (lines 41-45). -/
def part000Parse (curl : String) : Option PartItem :=
  match goURLParse (part000ResolvedUrl curl) with
  | none => none
  | some pu => if goHostname pu = "" then none else some (part000Build curl pu)

/-- The per-fixture loop of part_000 `main` (lines 178-181): the result
of `parseCurlCommand` is appended to the collection unconditionally,
including the nil results. -/
def part000ProcessCurls (curls : List String) : List (Option PartItem) :=
  curls.map part000Parse

/-! ### Lemmas about the header extractor -/

theorem matchHeaderAt_atFront {s : List Char} {r : String × String × List Char}
    (h : matchHeaderAt s = some r) : atFront "--header".data s = true := by
  obtain ⟨k, v, rest⟩ := r
  obtain ⟨hs, -, -, -⟩ := matchHeaderAt_sound h
  have hs2 : s = "--header".data ++
      (' ' :: '\x27' :: (k.data ++ ':' :: ' ' :: (v.data ++ '\x27' :: rest))) := by
    rw [hs]; rfl
  rw [hs2, atFront, dropLit_append_self]
  rfl

theorem findAllHeadersFuel_eq_nil :
    ∀ (fuel : Nat) (s : List Char), occursIn "--header".data s = false →
      findAllHeadersFuel fuel s = [] := by
  intro fuel
  induction fuel with
  | zero => intro s h; rfl
  | succ n ih =>
    intro s h
    cases s with
    | nil => rfl
    | cons c rest =>
      rw [findAllHeadersFuel]
      cases hm : matchHeaderAt (c :: rest) with
      | some kva =>
        exfalso
        have h1 : atFront "--header".data (c :: rest) = true := matchHeaderAt_atFront hm
        rw [occursIn, h1] at h
        simp at h
      | none =>
        simp only [hm]
        apply ih
        rw [occursIn] at h
        revert h
        cases occursIn "--header".data rest <;> simp

theorem findAllHeadersFuel_sound :
    ∀ (fuel : Nat) (s : List Char) (k v : String), (k, v) ∈ findAllHeadersFuel fuel s →
      ∃ a b, s = a ++ "--header \x27".data ++ k.data ++ ':' :: ' ' :: (v.data ++ '\x27' :: b) ∧
        k.data ≠ [] ∧ (∀ c ∈ k.data, c ≠ ':') ∧ (∀ c ∈ v.data, c ≠ '\x27') := by
  intro fuel
  induction fuel with
  | zero => intro s k v h; simp [findAllHeadersFuel] at h
  | succ n ih =>
    intro s k v h
    cases s with
    | nil => simp [findAllHeadersFuel] at h
    | cons c rest =>
      rw [findAllHeadersFuel] at h
      cases hm : matchHeaderAt (c :: rest) with
      | some kva =>
        obtain ⟨k2, v2, af⟩ := kva
        rw [hm] at h
        rcases List.mem_cons.mp h with heq | hmem
        · injection heq with h1 h2
          subst h1; subst h2
          obtain ⟨hs, hk, hkc, hvc⟩ := matchHeaderAt_sound hm
          exact ⟨[], af, by simpa using hs, hk, hkc, hvc⟩
        · obtain ⟨a, b, hab, hk, hkc, hvc⟩ := ih _ _ _ hmem
          obtain ⟨hs, -, -, -⟩ := matchHeaderAt_sound hm
          refine ⟨"--header \x27".data ++ k2.data ++ ':' :: ' ' ::
            (v2.data ++ '\x27' :: a), b, ?_, hk, hkc, hvc⟩
          have hab2 : af = a ++ "--header \x27".data ++ k.data ++ ':' :: ' ' ::
              (v.data ++ '\x27' :: b) := hab
          rw [hs, hab2]
          simp [List.append_assoc]
      | none =>
        rw [hm] at h
        obtain ⟨a, b, hab, hk, hkc, hvc⟩ := ih _ _ _ h
        exact ⟨c :: a, b, by rw [hab]; rfl, hk, hkc, hvc⟩

/-- If the literal `--header` occurs nowhere in `s`, the header regex
finds no match at all. -/
theorem findAllHeadersAux_eq_nil {s : List Char}
    (h : occursIn "--header".data s = false) : findAllHeadersAux s = [] :=
  findAllHeadersFuel_eq_nil _ _ h

/-- Every produced header entry arises from an occurrence of
`--header '<key>: <value>'` in the scanned string: the key is the text
between the opening quote and the first colon (nonempty, colon-free),
the value the text between the colon-space and the next quote. -/
theorem findAllHeadersAux_sound {s : List Char} {k v : String}
    (h : (k, v) ∈ findAllHeadersAux s) :
    ∃ a b, s = a ++ "--header \x27".data ++ k.data ++ ':' :: ' ' :: (v.data ++ '\x27' :: b) ∧
      k.data ≠ [] ∧ (∀ c ∈ k.data, c ≠ ':') ∧ (∀ c ∈ v.data, c ≠ '\x27') :=
  findAllHeadersFuel_sound _ _ _ _ h

/-! ### Lemmas about the URL resolver -/

theorem cutChar_append_not_mem {ch : Char} {p : List Char} (hp : ch ∉ p) (l : List Char) :
    cutChar ch (p ++ l) =
      match cutChar ch l with
      | none => none
      | some ab => some (p ++ ab.1, ab.2) := by
  induction p with
  | nil =>
    simp only [List.nil_append]
    cases cutChar ch l with
    | none => rfl
    | some ab => rfl
  | cons c cs ih =>
    have hc : ¬(c = ch) := fun hcc => hp (hcc ▸ List.mem_cons_self c cs)
    have hcs : ch ∉ cs := fun hm => hp (List.mem_cons_of_mem _ hm)
    simp only [List.cons_append, cutChar, List.append_eq]
    rw [if_neg hc, ih hcs]
    cases cutChar ch l with
    | none => rfl
    | some ab => rfl

theorem parseAuthorityAndPath_scheme {sch : String} {frag rawQuery : List Char} {fq : Bool}
    {rest : List Char} {pu : GoURL}
    (h : parseAuthorityAndPath sch frag rawQuery fq rest = some pu) : pu.scheme = sch := by
  unfold parseAuthorityAndPath at h
  split at h
  · split at h
    · exact absurd h (by simp)
    · split at h
      · exact absurd h (by simp)
      · rw [Option.some_inj] at h
        rw [← h]
  · split at h
    · exact absurd h (by simp)
    · rw [Option.some_inj] at h
      rw [← h]

theorem parseWithScheme_scheme {sch : String} {frag rest0 : List Char} {pu : GoURL}
    (h : parseWithScheme sch frag rest0 = some pu) : pu.scheme = sch := by
  unfold parseWithScheme at h
  split at h
  · exact parseAuthorityAndPath_scheme h
  · split at h
    · rw [Option.some_inj] at h
      rw [← h]
    · split at h
      · exact absurd h (by simp)
      · exact parseAuthorityAndPath_scheme h

theorem getScheme_http (w : List Char) :
    getScheme ('h' :: 't' :: 't' :: 'p' :: ':' :: w) = some (['h', 't', 't', 'p'], w) := rfl

theorem fragSplit_append_sharp_free {p : List Char} (hp : '#' ∉ p) (l : List Char) :
    fragSplit (p ++ l) = (p ++ (fragSplit l).1, (fragSplit l).2) := by
  unfold fragSplit
  rw [cutChar_append_not_mem hp]
  cases cutChar '#' l with
  | none => simp
  | some ab => simp

/-- Whenever `url.Parse ("http://" ++ u)` succeeds, the scheme is `http`. -/
theorem goURLParse_http_scheme {u : String} {pu : GoURL}
    (h : goURLParse ("http://" ++ u) = some pu) : pu.scheme = "http" := by
  unfold goURLParse at h
  have hdata : ("http://" ++ u).data =
      ['h', 't', 't', 'p', ':', '/', '/'] ++ u.data := by
    have h0 : ("http://" ++ u).data = "http://".data ++ u.data := String.data_append ..
    simpa using h0
  rw [hdata] at h
  rw [fragSplit_append_sharp_free (by decide)] at h
  split at h
  · exact absurd h (by simp)
  · split at h
    · exact absurd h (by simp)
    · have hgs : getScheme (['h', 't', 't', 'p', ':', '/', '/'] ++ (fragSplit u.data).1) =
          some (['h', 't', 't', 'p'], '/' :: '/' :: (fragSplit u.data).1) :=
        getScheme_http _
      rw [hgs] at h
      have h2 : parseWithScheme ⟨['h', 't', 't', 'p'].map Char.toLower⟩
          (fragSplit u.data).2 ('/' :: '/' :: (fragSplit u.data).1) = some pu := h
      have h3 := parseWithScheme_scheme h2
      rw [h3]
      rfl

theorem resolveScheme_prepends {u : String} (h : occursIn "://".data u.data = false) :
    resolveScheme u = "http://" ++ u := by
  simp [resolveScheme, h]

/-- Record-level scheme default for main.go: when the extracted URL
token does not contain `://` and a record is built, its protocol is
`http`. -/
theorem mainGoParse_protocol_http {s : String} {o : List String} {it : MainItem}
    (hocc : occursIn "://".data (mainGoMethodUrl s).2.data = false)
    (h : mainGoParse s o = some it) : it.request.url.protocol = "http" := by
  unfold mainGoParse at h
  split at h
  · exact absurd h (by simp)
  · next pu heq =>
    rw [Option.some_inj] at h
    rw [← h]
    show pu.scheme = "http"
    rw [mainGoResolvedUrl, resolveScheme_prepends hocc] at heq
    exact goURLParse_http_scheme heq

/-- Record-level scheme default for part_000. -/
theorem part000Parse_protocol_http {s : String} {it : PartItem}
    (hocc : occursIn "://".data (part000MethodUrl s).2.data = false)
    (h : part000Parse s = some it) : it.request.url.protocol = "http" := by
  unfold part000Parse at h
  split at h
  · exact absurd h (by simp)
  · next pu heq =>
    split at h
    · exact absurd h (by simp)
    · rw [Option.some_inj] at h
      rw [← h]
      show pu.scheme = "http"
      rw [part000ResolvedUrl, resolveScheme_prepends hocc] at heq
      exact goURLParse_http_scheme heq

/-- Every field of the main.go record except the query array. -/
def mainStrip (it : MainItem) :
    String × String × List HeaderKV × BodyRec × String × String × List String ×
      String × List String :=
  (it.name, it.request.method, it.request.header, it.request.body, it.request.url.raw,
    it.request.url.protocol, it.request.url.host, it.request.url.port, it.request.url.path)

/-- main.go is deterministic up to the enumeration order of the query
map: runs whose key orders are permutations of one another agree on all
fields but the query array, and their query arrays are permutations. -/
theorem mainGoParse_perm_queryKeys {c : String} {o₁ o₂ : List String} (hperm : o₁.Perm o₂) :
    (mainGoParse c o₁).map mainStrip = (mainGoParse c o₂).map mainStrip ∧
      ∀ it₁ it₂, mainGoParse c o₁ = some it₁ → mainGoParse c o₂ = some it₂ →
        it₁.request.url.query.Perm it₂.request.url.query := by
  constructor
  · unfold mainGoParse
    cases goURLParse (mainGoResolvedUrl c) with
    | none => rfl
    | some pu => rfl
  · intro it₁ it₂ h₁ h₂
    unfold mainGoParse at h₁ h₂
    cases hres : goURLParse (mainGoResolvedUrl c) with
    | none => rw [hres] at h₁; exact absurd h₁ (by simp)
    | some pu =>
      rw [hres] at h₁ h₂
      rw [Option.some_inj] at h₁ h₂
      rw [← h₁, ← h₂]
      show (mainGoQueryList pu o₁).Perm (mainGoQueryList pu o₂)
      exact hperm.flatMap_right _

/-- The `path` field of any record part_000 builds is the one-element
list holding the resolved URL's path with leading slashes removed. -/
theorem part000Parse_path {s : String} {it : PartItem} (h : part000Parse s = some it) :
    ∃ pu, goURLParse (part000ResolvedUrl s) = some pu ∧
      it.request.url.path = [⟨trimLeftChar '/' pu.path.data⟩] := by
  unfold part000Parse at h
  split at h
  · exact absurd h (by simp)
  · next pu heq =>
    split at h
    · exact absurd h (by simp)
    · rw [Option.some_inj] at h
      exact ⟨pu, heq, by rw [← h]; rfl⟩

/-- The `path` field of any record main.go builds, likewise. -/
theorem mainGoParse_path {s : String} {o : List String} {it : MainItem}
    (h : mainGoParse s o = some it) :
    ∃ pu, goURLParse (mainGoResolvedUrl s) = some pu ∧
      it.request.url.path = [⟨trimLeftChar '/' pu.path.data⟩] := by
  unfold mainGoParse at h
  split at h
  · exact absurd h (by simp)
  · next pu heq =>
    rw [Option.some_inj] at h
    exact ⟨pu, heq, by rw [← h]; rfl⟩

/-- part_000 always builds its record with body mode `raw`. -/
theorem part000Parse_mode_raw {s : String} {it : PartItem} (h : part000Parse s = some it) :
    it.request.body.mode = "raw" := by
  unfold part000Parse at h
  split at h
  · exact absurd h (by simp)
  · split at h
    · exact absurd h (by simp)
    · rw [Option.some_inj] at h
      rw [← h]
      rfl

/-- The body of any record main.go builds is `mainGoBody` of the
normalized command: mode `none` with empty raw when `--data-raw` does
not match, mode `raw` with the capture when it does. -/
theorem mainGoParse_body {s : String} {o : List String} {it : MainItem}
    (h : mainGoParse s o = some it) :
    it.request.body = mainGoBody (normalizeChars s.data) := by
  unfold mainGoParse at h
  split at h
  · exact absurd h (by simp)
  · rw [Option.some_inj] at h
    rw [← h]
    rfl

/-- The raw body content of any record part_000 builds. -/
theorem part000Parse_body_raw {s : String} {it : PartItem} (h : part000Parse s = some it) :
    it.request.body.raw = part000BodyRaw (normalizeChars s.data) := by
  unfold part000Parse at h
  split at h
  · exact absurd h (by simp)
  · split at h
    · exact absurd h (by simp)
    · rw [Option.some_inj] at h
      rw [← h]
      rfl

/-! ### Auxiliary definitions for the claim statements and witnesses -/

/-- Characters Go allows in a scheme name after the first letter. -/
def isSchemeNameChar (c : Char) : Bool :=
  c.isAlphanum || c = '+' || c = '-' || c = '.'

/-- Modelled from the wording of claim C7: does the token literally
start with a `scheme://` prefix (a scheme name followed by `://`)? -/
def hasSchemePrefix (u : String) : Bool :=
  match u.data.takeWhile isSchemeNameChar with
  | [] => false
  | c :: _ => c.isAlpha && atFront "://".data (u.data.dropWhile isSchemeNameChar)

def emptyPartItem : PartItem :=
  ⟨"", false, ⟨"", [], ⟨"", ""⟩, ⟨"", "", [], "", [], []⟩⟩, []⟩

/-- The record part_000 builds for `--request GET --url h/x`. -/
def part000ItemHX : PartItem :=
  (part000Parse "--request GET --url h/x").getD emptyPartItem

/-- The record part_000 builds for `--request GET --url h/a/b`. -/
def part000ItemAB : PartItem :=
  (part000Parse "--request GET --url h/a/b").getD emptyPartItem

/-- The record part_000 builds for `--request GET --url api.example.com/users`. -/
def part000ItemUsers : PartItem :=
  (part000Parse "--request GET --url api.example.com/users").getD emptyPartItem

/-! ### The claims -/

/-- Claim C1 counterexample: no single variant's method+URL extraction
supports both dialects.  main.go's extractor, fed the unquoted form
`--request POST --url api.example.com/users`, falls back to method `GET`
and an empty URL (so the built record's method is `GET`, not `POST`);
part_000's extractor, fed the quoted form
`--request POST 'http://api.example.com/users'`, also falls back to
`(GET, "")`, after which the empty URL makes it return nil - no record
at all. -/
theorem claim_C1_counterexample :
    (mainGoParse "--request POST --url api.example.com/users" []).map
        (fun it => it.request.method) = some "GET" ∧
      mainGoMethodUrl "--request POST --url api.example.com/users" = ("GET", "") ∧
      part000Parse "--request POST \x27http://api.example.com/users\x27" = none ∧
      part000MethodUrl "--request POST \x27http://api.example.com/users\x27" = ("GET", "") :=
  ⟨rfl, rfl, rfl, rfl⟩

/-- Claim C1 (amended): the two dialects are split across the two
parser variants.  main.go's extraction yields METHOD and URL exactly for
the quoted form `--request <METHOD> '<url>'`, part_000's exactly for the
unquoted form `--request <METHOD> --url <token>`; each variant defaults
to `(GET, "")` on the other dialect (shown in the counterexample). -/
theorem claim_C1 :
    mainGoMethodUrl "--request POST \x27http://api.example.com/users\x27" =
        ("POST", "http://api.example.com/users") ∧
      (mainGoParse "--request POST \x27http://api.example.com/users\x27" []).map
        (fun it => it.request.method) = some "POST" ∧
      part000MethodUrl "--request POST --url api.example.com/users" =
        ("POST", "api.example.com/users") ∧
      (part000Parse "--request POST --url api.example.com/users").map
        (fun it => it.request.method) = some "POST" :=
  ⟨rfl, rfl, rfl, rfl⟩

/-- Claim C2 (code bug): for the host-less input `--header 'X: Y'`,
main.go builds and returns a record whose `url.host` is `[""]` (the
`url.Parse` error is ignored, nothing is skipped), and part_000's main
loop appends the nil returned by its parser to the collection, so a null
entry is added.  Both contradict the claimed invariant that such items
are skipped and every entry has a non-empty `url.host`. -/
theorem claim_C2 :
    (mainGoParse "--header \x27X: Y\x27" []).map (fun it => it.request.url.host) =
        some [""] ∧
      part000ProcessCurls ["--header \x27X: Y\x27"] = [none] :=
  ⟨rfl, rfl⟩

/-- Claim C3 (code bug): for a URL with empty path
(`--request GET --url api.example.com`) part_000 names the record `""`,
not the placeholder `"Generated from Curl"`: `strings.Split` always
returns at least one element, so the `len(pathSegments) > 0` guard is
always true and the placeholder default is dead code.  The non-empty
path case works as claimed (second conjunct). -/
theorem claim_C3 :
    (part000Parse "--request GET --url api.example.com").map (fun it => it.name) =
        some "" ∧
      (part000Parse "--request GET --url api.example.com/users").map (fun it => it.name) =
        some "users" :=
  ⟨rfl, rfl⟩

/-- Claim C4 counterexample: the input `--request GET --url h/x`
contains neither a `--data '<json>'` nor a `--data-raw '<json>'`
pattern, yet part_000's record has body mode `raw` (the mode is
hardcoded on its line 83), not `none` as the claim states. -/
theorem claim_C4_counterexample :
    findDataCap (normalizeChars "--request GET --url h/x".data) = none ∧
      findDataRawCap (normalizeChars "--request GET --url h/x".data) = none ∧
      (part000Parse "--request GET --url h/x").map (fun it => it.request.body.mode) =
        some "raw" ∧
      ("raw" : String) ≠ "none" :=
  ⟨rfl, rfl, rfl, by decide⟩

/-- Claim C4 (amended): body handling differs per variant.  part_000's
body mode is always `raw`, with raw content the capture of `--data`
(preferred) else `--data-raw` else empty.  main.go yields mode `none`
and empty content exactly when `--data-raw` does not match - a plain
`--data` flag is ignored by it (third conjunct) - and mode `raw` with
the brace-delimited capture when `--data-raw` matches. -/
theorem claim_C4 :
    (∀ s it, part000Parse s = some it → it.request.body.mode = "raw") ∧
      (∀ s o it, mainGoParse s o = some it →
        it.request.body = mainGoBody (normalizeChars s.data)) ∧
      mainGoBody
        (normalizeChars "--request GET \x27http://h/x\x27 --data \x27\x7b\"a\":1\x7d\x27".data) =
        ⟨"none", ""⟩ ∧
      mainGoBody
        (normalizeChars
          "--request GET \x27http://h/x\x27 --data-raw \x27\x7b\"a\":1\x7d\x27".data) =
        ⟨"raw", "\x7b\"a\":1\x7d"⟩ ∧
      (part000Parse
          "--request GET --url h/x --data \x27\x7b\"a\":1\x7d\x27 --data-raw \x27\x7b\"b\":2\x7d\x27").map
        (fun it => it.request.body.raw) = some "\x7b\"a\":1\x7d" :=
  ⟨fun _ _ h => part000Parse_mode_raw h, fun _ _ _ h => mainGoParse_body h, rfl, rfl, rfl⟩

/-- Claim C4 witness: the universally quantified parts of `claim_C4`
applied at a concrete successfully parsed command. -/
theorem claim_C4_witness :
    part000Parse "--request GET --url h/x" = some part000ItemHX ∧
      part000ItemHX.request.body.mode = "raw" :=
  ⟨rfl, claim_C4.1 "--request GET --url h/x" part000ItemHX rfl⟩

/-- Claim C5 counterexample: for the multi-segment path `/a/b` both
variants set `url.path` to the single-element list `["a/b"]` (the code
is `[]string{strings.TrimLeft(parsedUrl.Path, "/")}` - no split), not
`["a", "b"]` as the claim states. -/
theorem claim_C5_counterexample :
    (part000Parse "--request GET --url h/a/b").map (fun it => it.request.url.path) =
        some ["a/b"] ∧
      (mainGoParse "--request GET \x27http://h/a/b\x27" []).map
        (fun it => it.request.url.path) = some ["a/b"] ∧
      (["a/b"] : List String) ≠ ["a", "b"] :=
  ⟨rfl, rfl, by decide⟩

/-- Claim C5 (amended): in both variants `url.path` is the one-element
list holding the resolved URL's path with all leading `/` characters
removed; no splitting on `/` happens (a single-segment path such as
`/users` coincidentally yields `["users"]`, third conjunct). -/
theorem claim_C5 :
    (∀ s it, part000Parse s = some it →
      ∃ pu, goURLParse (part000ResolvedUrl s) = some pu ∧
        it.request.url.path = [⟨trimLeftChar '/' pu.path.data⟩]) ∧
      (∀ s o it, mainGoParse s o = some it →
        ∃ pu, goURLParse (mainGoResolvedUrl s) = some pu ∧
          it.request.url.path = [⟨trimLeftChar '/' pu.path.data⟩]) ∧
      (part000Parse "--request GET --url api.example.com/users").map
        (fun it => it.request.url.path) = some ["users"] :=
  ⟨fun _ _ h => part000Parse_path h, fun _ _ _ h => mainGoParse_path h, rfl⟩

/-- Claim C5 witness: the part_000 half of `claim_C5` applied at
`--request GET --url h/a/b`. -/
theorem claim_C5_witness :
    part000Parse "--request GET --url h/a/b" = some part000ItemAB ∧
      ∃ pu, goURLParse (part000ResolvedUrl "--request GET --url h/a/b") = some pu ∧
        part000ItemAB.request.url.path = [⟨trimLeftChar '/' pu.path.data⟩] :=
  ⟨rfl, claim_C5.1 "--request GET --url h/a/b" part000ItemAB rfl⟩

/-- Claim C6 counterexample: main.go's query array is built by ranging
over the `url.Values` map (lines 40-48), whose key enumeration order Go
leaves unspecified.  For `?a=1&b=2` both `["a", "b"]` and `["b", "a"]`
are enumerations of the key set, and the two runs produce different
records - so two runs on identical input need not be byte-identical. -/
theorem claim_C6_counterexample :
    mainGoQueryKeys "--request GET \x27http://h/p?a=1&b=2\x27" = ["a", "b"] ∧
      (["a", "b"] : List String).Perm ["b", "a"] ∧
      mainGoParse "--request GET \x27http://h/p?a=1&b=2\x27" ["a", "b"] ≠
        mainGoParse "--request GET \x27http://h/p?a=1&b=2\x27" ["b", "a"] :=
  ⟨rfl, by decide, by decide⟩

/-- Claim C6 (amended): main.go's conversion is deterministic up to the
query-map enumeration order: two runs whose key orders are permutations
of one another agree on every field except the query array, and the two
query arrays are permutations of each other.  (In particular runs with
equal enumeration orders, e.g. any URL with at most one distinct query
key, give byte-identical records.) -/
theorem claim_C6 {c : String} {o₁ o₂ : List String} (hperm : o₁.Perm o₂) :
    (mainGoParse c o₁).map mainStrip = (mainGoParse c o₂).map mainStrip ∧
      ∀ it₁ it₂, mainGoParse c o₁ = some it₁ → mainGoParse c o₂ = some it₂ →
        it₁.request.url.query.Perm it₂.request.url.query :=
  mainGoParse_perm_queryKeys hperm

/-- Claim C6 witness: `claim_C6` applied at the counterexample input
and the two key orders. -/
theorem claim_C6_witness :
    (mainGoParse "--request GET \x27http://h/p?a=1&b=2\x27" ["a", "b"]).map mainStrip =
      (mainGoParse "--request GET \x27http://h/p?a=1&b=2\x27" ["b", "a"]).map mainStrip :=
  (claim_C6 (by decide)).1

/-- Claim C7 counterexample: the resolver tests `strings.Contains(url,
"://")`, not a prefix.  The token `x?y=a://b` (extractable by main.go's
quoted dialect) lacks a `scheme://` prefix, yet is not prepended with
`http://`, and the built record's protocol is `""`, not `http`. -/
theorem claim_C7_counterexample :
    mainGoMethodUrl "--request GET \x27x?y=a://b\x27" = ("GET", "x?y=a://b") ∧
      hasSchemePrefix "x?y=a://b" = false ∧
      resolveScheme "x?y=a://b" = "x?y=a://b" ∧
      (mainGoParse "--request GET \x27x?y=a://b\x27" ["y"]).map
        (fun it => it.request.url.protocol) = some "" ∧
      ("" : String) ≠ "http" :=
  ⟨rfl, rfl, rfl, rfl, by decide⟩

/-- Claim C7 (amended): for every extracted URL token that does not
contain the substring `://` anywhere, the resolver prepends `http://`,
and every record either variant then builds has protocol `http`. -/
theorem claim_C7 :
    (∀ u : String, occursIn "://".data u.data = false → resolveScheme u = "http://" ++ u) ∧
      (∀ (u : String) (pu : GoURL), goURLParse ("http://" ++ u) = some pu →
        pu.scheme = "http") ∧
      (∀ s o it, occursIn "://".data (mainGoMethodUrl s).2.data = false →
        mainGoParse s o = some it → it.request.url.protocol = "http") ∧
      (∀ s it, occursIn "://".data (part000MethodUrl s).2.data = false →
        part000Parse s = some it → it.request.url.protocol = "http") :=
  ⟨fun _ h => resolveScheme_prepends h, fun _ _ h => goURLParse_http_scheme h,
    fun _ _ _ h1 h2 => mainGoParse_protocol_http h1 h2,
    fun _ _ h1 h2 => part000Parse_protocol_http h1 h2⟩

/-- Claim C7 witness: `claim_C7` applied to the scheme-less token
`api.example.com/users` and the part_000 record built from it. -/
theorem claim_C7_witness :
    resolveScheme "api.example.com/users" = "http://" ++ "api.example.com/users" ∧
      part000Parse "--request GET --url api.example.com/users" = some part000ItemUsers ∧
      part000ItemUsers.request.url.protocol = "http" :=
  ⟨claim_C7.1 "api.example.com/users" (by decide), rfl,
    claim_C7.2.2.2 "--request GET --url api.example.com/users" part000ItemUsers
      (by decide) rfl⟩

/-- Claim C8: header extraction.  First: an input in which `--header`
does not occur yields an empty header list.  Second (soundness): every
produced (key, value) entry comes from an occurrence of
`--header '<key>: <value>'` in the scanned text, with the key exactly
the nonempty colon-free text before the first colon and the value
exactly the quote-free text between the colon-space and the closing
quote.  Third: the matches are collected in order of appearance (shown
on spec scenario 1 extended with a second header). -/
theorem claim_C8 :
    (∀ s : List Char, occursIn "--header".data s = false → findAllHeadersAux s = []) ∧
      (∀ (s : List Char) (k v : String), (k, v) ∈ findAllHeadersAux s →
        ∃ a b, s = a ++ "--header \x27".data ++ k.data ++ ':' :: ' ' ::
            (v.data ++ '\x27' :: b) ∧
          k.data ≠ [] ∧ (∀ c ∈ k.data, c ≠ ':') ∧ (∀ c ∈ v.data, c ≠ '\x27')) ∧
      headerEntries (normalizeChars
          "--request GET --url api.example.com/users --header \x27Authorization: Bearer xyz\x27 --header \x27X-Trace: 1\x27".data) =
        [⟨"Authorization", "Bearer xyz"⟩, ⟨"X-Trace", "1"⟩] :=
  ⟨fun _ h => findAllHeadersAux_eq_nil h, fun _ _ _ h => findAllHeadersAux_sound h, rfl⟩

/-- Claim C8 witness: both quantified parts of `claim_C8` applied at
concrete inputs. -/
theorem claim_C8_witness :
    findAllHeadersAux "--request GET --url h/x".data = [] ∧
      ∃ a b, "--header \x27K: V\x27".data =
        a ++ "--header \x27".data ++ "K".data ++ ':' :: ' ' :: ("V".data ++ '\x27' :: b) ∧
        "K".data ≠ [] ∧ (∀ c ∈ "K".data, c ≠ ':') ∧ (∀ c ∈ "V".data, c ≠ '\x27') :=
  ⟨claim_C8.1 "--request GET --url h/x".data (by decide),
    claim_C8.2.1 "--header \x27K: V\x27".data "K" "V" (by decide)⟩

/-- Claim C9: the text normalizer equals, on every input, the
single-pass function that replaces each backslash-newline pair by one
space, each remaining bare newline by one space, and copies every other
character; it is a pure total Lean function, so it always succeeds. -/
theorem claim_C9 : ∀ s : String, normalizeCmd s = ⟨specNormalizeChars s.data⟩ :=
  fun s => congrArg String.mk (normalizeChars_eq_spec s.data)

/-- Claim C10 counterexample: a colon-space-less `--header '<text>'`
occurrence can still contribute to an entry.  In
`--header 'AB' --header 'C: D'` the quoted text `AB` of the first
occurrence contains no colon-space, yet the extractor produces the
single merged entry `("AB' --header 'C", "D")` whose key spans across
that occurrence's closing quote - instead of leaving entry `("C", "D")`
untouched as the claim implies. -/
theorem claim_C10_counterexample :
    occursIn ": ".data "AB".data = false ∧
      findAllHeadersAux "--header \x27AB\x27 --header \x27C: D\x27".data =
        [("AB\x27 --header \x27C", "D")] ∧
      findAllHeadersAux "--header \x27AB\x27 --header \x27C: D\x27".data ≠ [("C", "D")] :=
  ⟨rfl, rfl, by decide⟩

/-- Claim C10 (amended): a `--header '<text>'` occurrence without a
colon-space yields no entry of its own - in particular an input whose
only header flag is such an occurrence yields an empty list (first
conjunct) - and every entry the extractor does produce contains a
literal colon-space at its key/value boundary (second conjunct); but
when a later colon-space and quote follow in the input, such an
occurrence can be absorbed into one merged entry whose key spans past
its closing quote (third conjunct). -/
theorem claim_C10 :
    findAllHeadersAux (normalizeChars "--header \x27Key:Value\x27".data) = [] ∧
      (∀ (s : List Char) (k v : String), (k, v) ∈ findAllHeadersAux s →
        ∃ a b, s = a ++ "--header \x27".data ++ k.data ++ ':' :: ' ' ::
          (v.data ++ '\x27' :: b)) ∧
      findAllHeadersAux "--header \x27AB\x27 --header \x27C: D\x27".data =
        [("AB\x27 --header \x27C", "D")] :=
  ⟨rfl,
    fun s k v h =>
      match findAllHeadersAux_sound h with
      | ⟨a, b, hab, _, _, _⟩ => ⟨a, b, hab⟩,
    rfl⟩

/-- Claim C10 witness: the quantified part of `claim_C10` applied at a
concrete well-formed header occurrence. -/
theorem claim_C10_witness :
    ∃ a b, "--header \x27A: B\x27".data =
      a ++ "--header \x27".data ++ "A".data ++ ':' :: ' ' :: ("B".data ++ '\x27' :: b) :=
  claim_C10.2.1 "--header \x27A: B\x27".data "A" "B" (by decide)
